import Mathlib

/-!
Verification of the w3g block decompressor (`file/w3g/decompress.go`).

The Go code is shallowly embedded: the `Decompressor` struct becomes a Lean
structure, its methods (`nextBlock`, `closeBlock`, `Read`, `ForEach`) become
pure state-passing functions, and Go `uint32` arithmetic is `Nat` with
explicit reduction modulo `2 ^ 32`.

The byte source `d.r` is a `List Nat` of remaining bytes.  The reader
plumbing of the Go code is modelled explicitly:
  * `io.LimitedReader` is the `limN` budget field,
  * the `io.TeeReader` into the running CRC is folded into `teeTake`,
    which consumes source bytes, decrements the budget, and updates the
    running CRC-32 accumulator,
  * `hash/crc32` (IEEE) is implemented bit by bit below.

The zlib engine is an out-of-repository collaborator (the spec treats it as
an abstract streaming decompressor).  It is modelled with identity coding:
a block's compressed body is a fixed 2-byte framing header (read eagerly by
`zlib.NewReader`/`Reset`, mirroring the RFC 1950 header) followed by the
literal payload bytes.  Reading the engine pulls bytes one-for-one through
the tee; exhaustion of the budgeted source mid-stream surfaces as
`io.ErrUnexpectedEOF`, exactly the condition the Go code treats as the
end-of-block control-flow signal.  A truncated framing header at
`Reset` also surfaces as `io.ErrUnexpectedEOF` (Go's `zlib.readHeader`
reads it with `io.ReadFull` and converts a bare `io.EOF`).
-/

namespace W3g

/-- Go `uint32` truncation. -/
def u32 (n : Nat) : Nat := n % 4294967296

/-- Go `uint16` truncation. -/
def u16 (n : Nat) : Nat := n % 65536

/-- Go `uint32` subtraction `a - b` (two's complement wrap). -/
def sub32 (a b : Nat) : Nat := (a + (4294967296 - b % 4294967296)) % 4294967296

/-- Little-endian byte of a list at index `i` (Go bytes are below 256). -/
def byteAt (bs : List Nat) (i : Nat) : Nat := bs.getD i 0 % 256

/-- Little-endian 16-bit read, as `protocol.Buffer.ReadUInt16`. -/
def le16 (bs : List Nat) : Nat := byteAt bs 0 + 256 * byteAt bs 1

/-- Little-endian 32-bit read, as `protocol.Buffer.ReadUInt32`. -/
def le32 (bs : List Nat) : Nat :=
  byteAt bs 0 + 256 * byteAt bs 1 + 65536 * byteAt bs 2 + 16777216 * byteAt bs 3

/-- Little-endian 16-bit encode. -/
def le16bytes (n : Nat) : List Nat := [n % 256, n / 256 % 256]

/-- Little-endian 32-bit encode. -/
def le32bytes (n : Nat) : List Nat :=
  [n % 256, n / 256 % 256, n / 65536 % 256, n / 16777216 % 256]

/-! ### CRC-32 (IEEE), as `hash/crc32` -/

/-- Reflected IEEE CRC-32 polynomial. -/
def crc32poly : Nat := 0xEDB88320

/-- One bit step of the reflected CRC-32. -/
def crc32stepBit (c : Nat) : Nat :=
  if c % 2 = 1 then (c / 2) ^^^ crc32poly else c / 2

/-- Digest one byte into the raw (pre-inversion) CRC-32 state. -/
def crc32byte (c b : Nat) : Nat := crc32stepBit^[8] (c ^^^ b % 256)

/-- Initial raw CRC-32 state (all ones). -/
def crc32init : Nat := 0xFFFFFFFF

/-- Digest a byte list into the raw CRC-32 state. -/
def crc32digest (c : Nat) (bs : List Nat) : Nat := bs.foldl crc32byte c

/-- `crc32.ChecksumIEEE` over a byte list. -/
def checksumIEEE (bs : List Nat) : Nat := crc32digest crc32init bs ^^^ 0xFFFFFFFF

/-- `Sum32` of the running hash whose raw state is `c`. -/
def sum32 (c : Nat) : Nat := c ^^^ 0xFFFFFFFF

/-- Fold a 32-bit checksum to 16 bits: Go `uint16(crc ^ crc>>16)`. -/
def fold16 (c : Nat) : Nat := u16 (c ^^^ c / 65536)

/-! ### The decompressor state -/

/-- Errors the decompressor session can surface (Go `error` values):
`io.EOF`, `io.ErrUnexpectedEOF`, `ErrInvalidChecksum`.  `fuel` never
occurs in a run that is given enough loop fuel; it only makes the loop
encoding total. -/
inductive DErr
  | eof
  | unexpectedEOF
  | invalidChecksum
  | fuel
deriving DecidableEq

/-- The `Decompressor` struct of `decompress.go`.  `src` is the remaining
byte stream of the underlying reader `d.r`; `limN` is `d.lim.N`; `crc` is
the raw state of the running `crc32` hash. -/
structure Decompressor where
  GameVersion : Nat
  SizeRead : Nat
  SizeTotal : Nat
  SizeBlock : Nat
  NumBlocks : Nat
  src : List Nat
  limN : Nat
  crc : Nat
  crcData : Nat
deriving DecidableEq

/-- `NewDecompressor`: fresh session over a byte stream.  Go zero values:
counters 0, the running crc32 hash freshly initialised (`Sum32 = 0`). -/
def NewDecompressor (gv : Nat) (src : List Nat) (numBlocks sizeTotal : Nat) :
    Decompressor :=
  { GameVersion := gv, SizeRead := 0, SizeTotal := sizeTotal, SizeBlock := 0,
    NumBlocks := numBlocks, src := src, limN := 0, crc := crc32init,
    crcData := 0 }

/-- Header length for the session: Go `lenHead` in `nextBlock` (12, minus 4
when `0 < GameVersion < 10032`). -/
def headLen (gv : Nat) : Nat := if 0 < gv ∧ gv < 10032 then 8 else 12

/-- Size of the framing header the decompression engine consumes eagerly at
reset (the 2-byte zlib header). -/
def zHDR : Nat := 2

/-- Consume up to `k` bytes through the tee: bounded by the
`LimitedReader` budget and by the bytes left in the source; every consumed
byte feeds the running CRC.  Returns the count consumed and the new
state. -/
def teeTake (d : Decompressor) (k : Nat) : Nat × Decompressor :=
  let nn := min k (min d.limN d.src.length)
  (nn, { d with src := d.src.drop nn, limN := d.limN - nn,
                crc := crc32digest d.crc (d.src.take nn) })

/-- `io.ReadFull(d.z, ·)` with a `k`-byte buffer under the identity-coding
engine model: bytes stream one-for-one through the tee; a short read
surfaces `io.ErrUnexpectedEOF` (budget or source exhausted mid-stream). -/
def zReadFull (d : Decompressor) (k : Nat) : Nat × Decompressor × Option DErr :=
  let (nn, d') := teeTake d k
  (nn, d', if nn = k then none else some .unexpectedEOF)

/-- `zlib.NewReader` / `Reset`: eagerly consume the `zHDR` framing bytes
through the tee; a short read is `io.ErrUnexpectedEOF`. -/
def zlibReset (d : Decompressor) : Decompressor × Option DErr :=
  let (nn, d') := teeTake d zHDR
  (d', if nn = zHDR then none else some .unexpectedEOF)

/-- `io.Copy(ioutil.Discard, d.z)` in the drain path: consume everything
the budgeted source still offers (the copy's error is discarded by the Go
code), subtracting the drained count from `SizeBlock`. -/
def drainZ (d : Decompressor) : Decompressor :=
  let (nn, d') := teeTake d d.limN
  { d' with SizeBlock := sub32 d'.SizeBlock nn }

/-- `closeBlock`: the block must be fully consumed on both the
decompressed (`SizeBlock`) and compressed (`lim.N`) budgets, and the folded
payload checksum must match. -/
def closeBlock (d : Decompressor) : Option DErr :=
  if 0 < d.SizeBlock ∨ 0 < d.limN then some .unexpectedEOF
  else if d.crcData ≠ fold16 (sum32 d.crc) then some .invalidChecksum
  else none

/-- Header field extraction of `nextBlock`, layout chosen by the game
version: `(lenDeflate, sizeBlock, crcHead, crcData)`. -/
def parseHeader (gv : Nat) (hdr : List Nat) : Nat × Nat × Nat × Nat :=
  if gv = 0 ∨ 10032 ≤ gv then
    (le32 hdr, le32 (hdr.drop 4), le16 (hdr.drop 8), le16 (hdr.drop 10))
  else
    (le16 hdr, le16 (hdr.drop 2), le16 (hdr.drop 4), le16 (hdr.drop 6))

/-- `nextBlock`: refuse when no blocks remain (`io.EOF`), close the
previous block, read and validate the next header, then point the budget
at the block's compressed bytes and reset the engine. -/
def nextBlock (d : Decompressor) : Decompressor × Option DErr :=
  if d.NumBlocks = 0 then (d, some .eof)
  else match closeBlock d with
  | some e => (d, some e)
  | none =>
    let d := { d with NumBlocks := d.NumBlocks - 1 }
    let lh := headLen d.GameVersion
    if d.src.length < lh then
      -- io.ReadFull got a partial header: n bytes read, then EOF
      let n := d.src.length
      ({ d with SizeRead := u32 (d.SizeRead + n), src := [] },
       some (if n = 0 then .eof else .unexpectedEOF))
    else
      let hdr := d.src.take lh
      let d := { d with SizeRead := u32 (d.SizeRead + lh), src := d.src.drop lh }
      let p := parseHeader d.GameVersion hdr
      let lenDeflate := p.1
      let d := { d with SizeBlock := p.2.1, crcData := p.2.2.2 }
      let crcHead := p.2.2.1
      -- zero the two checksum fields, then CRC the raw header bytes
      let c := checksumIEEE (hdr.take (lh - 4) ++ [0, 0, 0, 0])
      if crcHead ≠ fold16 c then (d, some .invalidChecksum)
      else
        let d := { d with limN := lenDeflate, crc := crc32init }
        let (d, zerr) := zlibReset d
        -- account for the engine framing consumed out of the budget
        let d := { d with SizeRead := u32 (d.SizeRead + (lenDeflate - d.limN)) }
        (d, zerr)

/-- One iteration of the `for n != l` loop body of `Read`.  `.inl` is an
early `return` out of `Read`; `.inr` means the loop continues (Go
`continue`, or falling off the `switch`) with the new count and state. -/
def readStep (d₀ : Decompressor) (n₀ l : Nat) :
    (Nat × Decompressor × Option DErr) ⊕ (Nat × Decompressor) :=
  let (d, berr) := if d₀.SizeBlock = 0 then nextBlock d₀ else (d₀, none)
  match berr with
  | some e => .inl (n₀, d, some e)
  | none =>
    let r := d.limN
    let (nn, d, rerr) := zReadFull d (l - n₀)
    let d := { d with SizeRead := u32 (d.SizeRead + (r - d.limN)),
                      SizeTotal := sub32 d.SizeTotal nn,
                      SizeBlock := sub32 d.SizeBlock nn }
    let n := n₀ + nn
    match rerr with
    | none =>
      let d := if d.SizeTotal = 0 ∧ 0 < d.SizeBlock then drainZ d else d
      if 0 < d.SizeBlock then .inr (n, d)
      else match closeBlock d with
        | some e => .inl (n, d, some e)
        | none => .inr (n, d)
    | some DErr.unexpectedEOF =>
      match closeBlock d with
      | some e => .inl (n, d, some e)
      | none => .inr (n, d)
    | some e => .inl (n, d, some e)

/-- The `for n != l` loop of `Read`, with explicit fuel.  `n` is the count
delivered so far, `l` the clamped target. -/
def readLoop : Nat → Decompressor → Nat → Nat → Nat × Decompressor × Option DErr
  | 0, d, n, _ => (n, d, some .fuel)
  | fuel + 1, d, n, l =>
    if n = l then (n, d, none)
    else match readStep d n l with
      | .inl r => r
      | .inr (n', d') => readLoop fuel d' n' l

/-- `Read`: end-of-stream when nothing is owed, otherwise clamp the buffer
to `SizeTotal` and run the loop (`NumBlocks + 3` fuel always suffices:
every non-final iteration passes through `nextBlock`). -/
def Decompressor.Read (d : Decompressor) (bufLen : Nat) :
    Nat × Decompressor × Option DErr :=
  if d.SizeTotal = 0 then (0, d, some .eof)
  else readLoop (d.NumBlocks + 3) d 0 (min bufLen d.SizeTotal)

/-! ### Well-formed encoded streams

A container block in the identity-coding engine model: `framing` is the
fixed-size engine header (2 bytes for zlib), `payload` the decompressed
bytes, which the identity engine reads one-for-one from the compressed
path.  The declared compressed length of such a block is
`framing.length + payload.length`. -/

/-- One block of a container stream. -/
structure Block where
  framing : List Nat
  payload : List Nat
deriving DecidableEq

/-- Declared compressed length of a block (framing plus payload). -/
def Block.lenDeflate (b : Block) : Nat := b.framing.length + b.payload.length

/-- The compressed body of the block: what flows through the tee. -/
def Block.body (b : Block) : List Nat := b.framing ++ b.payload

/-- The declared (folded) payload checksum of a block: CRC-32 over the
compressed body, folded to 16 bits. -/
def Block.crcData16 (b : Block) : Nat := fold16 (checksumIEEE b.body)

/-- The block header with the two checksum fields zeroed: the byte string
the header CRC is computed over. -/
def mkHeaderRaw (gv : Nat) (b : Block) : List Nat :=
  if gv = 0 ∨ 10032 ≤ gv then
    le32bytes b.lenDeflate ++ le32bytes b.payload.length ++ [0, 0, 0, 0]
  else
    le16bytes b.lenDeflate ++ le16bytes b.payload.length ++ [0, 0, 0, 0]

/-- The block header with both checksum fields filled in correctly. -/
def mkHeader (gv : Nat) (b : Block) : List Nat :=
  (mkHeaderRaw gv b).take (headLen gv - 4) ++
    le16bytes (fold16 (checksumIEEE (mkHeaderRaw gv b))) ++
    le16bytes b.crcData16

/-- Full encoding of one block: header, engine framing, payload. -/
def encodeBlock (gv : Nat) (b : Block) : List Nat := mkHeader gv b ++ b.body

/-- Full encoding of a container stream. -/
def encodeStream (gv : Nat) (bs : List Block) : List Nat :=
  (bs.map (encodeBlock gv)).flatten

/-- Sum of the declared decompressed sizes of a block list. -/
def totalPayload (bs : List Block) : Nat := (bs.map (fun b => b.payload.length)).sum

/-- Sum of the compressed bytes consumed per block as `SizeRead` counts
them: block header plus declared compressed length. -/
def totalSizeRead (gv : Nat) (bs : List Block) : Nat :=
  (bs.map (fun b => headLen gv + b.lenDeflate)).sum

/-- A block is well formed for a game version when its framing has the
engine's fixed size and its two declared lengths fit the header layout's
field width. -/
def wfBlock (gv : Nat) (b : Block) : Prop :=
  b.framing.length = zHDR ∧
  b.lenDeflate < (if gv = 0 ∨ 10032 ≤ gv then 4294967296 else 65536) ∧
  b.payload.length < (if gv = 0 ∨ 10032 ≤ gv then 4294967296 else 65536)

instance (gv : Nat) (b : Block) : Decidable (wfBlock gv b) := by
  unfold wfBlock; infer_instance

/-! ### Record iteration driver

Modelled from the spec: `RecordDecoder.Read` (the external record decoder
`ForEach` drives) is not among the sources; per the spec it is a
collaborator that decodes one record at a time from the decompressed byte
stream, reporting a record, a clean end of stream, or an error.  The
decoder's output is therefore abstracted as the list of outcomes it
produces, terminated by the clean end of stream; the callback either
succeeds (`none`) or fails with an error.  `ForEach` returns the list of
records the callback was invoked on (in order) together with the final
result, mirroring the Go loop: decode, stop on decode error, invoke the
callback, stop on callback error, succeed at clean end of stream. -/
def ForEach {ρ ε : Type} (f : ρ → Option ε) :
    List (Except ε ρ) → List ρ × Option ε
  | [] => ([], none)
  | (Except.error e) :: _ => ([], some e)
  | (Except.ok r) :: rest =>
    match f r with
    | some e => ([r], some e)
    | none =>
      let p := ForEach f rest
      (r :: p.1, p.2)


/-! ### Concrete example material for witnesses and counterexamples -/

/-- A 3-byte-payload block used by concrete runs. -/
def wBlk : Block := ⟨[120, 156], [10, 20, 30]⟩

/-- A 6-byte-payload block (spec test construct, first block). -/
def blk6 : Block := ⟨[120, 156], [1, 2, 3, 4, 5, 6]⟩

/-- An 8-byte-payload block (spec test construct, second block). -/
def blk8 : Block := ⟨[120, 156], [7, 8, 9, 10, 11, 12, 13, 14]⟩

/-- A 10-byte-payload block used for truncation runs. -/
def blk10 : Block := ⟨[120, 156], [1, 2, 3, 4, 5, 6, 7, 8, 9, 10]⟩

/-- A modern-layout block header whose two checksum fields are zero, so its
declared header checksum does not match the computed one. -/
def badHdr : List Nat := [5, 0, 0, 0, 3, 0, 0, 0, 0, 0, 0, 0]

end W3g

namespace W3g

set_option maxRecDepth 40000

/-- Every early return out of the read loop body carries an error. -/
theorem readStep_inl (d : Decompressor) (n l : Nat) (r : Nat × Decompressor × Option DErr)
    (h : readStep d n l = Sum.inl r) : r.2.2 ≠ none := by
  unfold readStep at h
  repeat' first
  | split at h
  | dsimp only at h
  all_goals first
  | exact Sum.noConfusion h
  | (injection h with h; subst h; simp)

/-- The read loop returns without error only when it has delivered the
full clamped target. -/
theorem readLoop_none (fuel : Nat) :
    ∀ d n l n' d', readLoop fuel d n l = (n', d', none) → n' = l := by
  induction fuel with
  | zero => intro d n l n' d' h; simp [readLoop] at h
  | succ f ih =>
    intro d n l n' d' h
    unfold readLoop at h
    by_cases hnl : n = l
    · rw [if_pos hnl] at h
      injection h with h1 h2
      exact h1 ▸ hnl
    · rw [if_neg hnl] at h
      cases hs : readStep d n l with
      | inl r =>
        rw [hs] at h
        dsimp only at h
        exact absurd (by rw [h] : r.2.2 = (none : Option DErr)) (readStep_inl d n l r hs)
      | inr p =>
        rw [hs] at h
        dsimp only at h
        exact ih p.2 p.1 l n' d' h

/-- C9: a read on a session with nothing owed (totalBytesRemaining = 0)
reports end of stream at once, delivers zero bytes, leaves the state
untouched, and every subsequent read does the same (the state is
terminal). -/
theorem c9_read_terminal (d : Decompressor) (bufLen k : Nat) (h : d.SizeTotal = 0) :
    d.Read bufLen = (0, d, some DErr.eof) ∧
    ((d.Read bufLen).2.1).Read k = (0, d, some DErr.eof) := by
  have h1 : d.Read bufLen = (0, d, some DErr.eof) := by
    unfold Decompressor.Read; rw [if_pos h]
  refine ⟨h1, ?_⟩
  rw [h1]
  unfold Decompressor.Read; rw [if_pos h]

theorem c9_witness :
    (NewDecompressor 0 [] 0 0).SizeTotal = 0 ∧
    (NewDecompressor 0 [] 0 0).Read 7 = (0, NewDecompressor 0 [] 0 0, some DErr.eof) :=
  ⟨by decide, (c9_read_terminal (NewDecompressor 0 [] 0 0) 7 1 (by decide)).1⟩

/-- C10: a read on a session with totalBytesRemaining = t > 0 that returns
no error delivers exactly min(bufLen, t) bytes; a smaller count is only
ever returned together with an error (no short successful reads). -/
theorem c10_read_exact (d : Decompressor) (bufLen : Nat) (ht : 0 < d.SizeTotal)
    (h : (d.Read bufLen).2.2 = none) :
    (d.Read bufLen).1 = min bufLen d.SizeTotal := by
  rcases he : d.Read bufLen with ⟨n, d', err⟩
  rw [he] at h
  dsimp at h
  subst h
  unfold Decompressor.Read at he
  rw [if_neg (by omega)] at he
  have := readLoop_none (d.NumBlocks + 3) d 0 (min bufLen d.SizeTotal) n d' he
  simpa [he] using this

theorem c10_witness :
    0 < (NewDecompressor 0 (encodeStream 0 [wBlk]) 1 3).SizeTotal ∧
    ((NewDecompressor 0 (encodeStream 0 [wBlk]) 1 3).Read 100).1 = min 100 3 :=
  ⟨by decide, c10_read_exact (NewDecompressor 0 (encodeStream 0 [wBlk]) 1 3) 100
    (by decide) (by decide)⟩

/-- C1: counterexample.  A session with five bytes still owed but zero
blocks remaining fails its read with io.EOF — the very same clean
end-of-stream value that a successfully exhausted session (second
conjunct) reports — not with a distinct EndOfBlocks error; no such
distinct error value exists in the code. -/
theorem c1_counterexample :
    (NewDecompressor 0 [] 0 5).Read 5 = (0, NewDecompressor 0 [] 0 5, some DErr.eof) ∧
    (NewDecompressor 0 [] 0 0).Read 5 = (0, NewDecompressor 0 [] 0 0, some DErr.eof) := by
  constructor <;> decide


theorem u32_small (n : Nat) (h : n < 4294967296) : u32 n = n := Nat.mod_eq_of_lt h

theorem sub32_small (a b : Nat) (hba : b ≤ a) (ha : a < 4294967296) :
    sub32 a b = a - b := by
  unfold sub32
  have hb : b % 4294967296 = b := Nat.mod_eq_of_lt (lt_of_le_of_lt hba ha)
  rw [hb]
  omega

theorem fold16_lt (c : Nat) : fold16 c < 65536 := Nat.mod_lt _ (by omega)

theorem le16_round (n : Nat) (rest : List Nat) (h : n < 65536) :
    le16 (le16bytes n ++ rest) = n := by
  simp [le16, le16bytes, byteAt]
  omega

theorem le32_round (n : Nat) (rest : List Nat) (h : n < 4294967296) :
    le32 (le32bytes n ++ rest) = n := by
  simp [le32, le32bytes, byteAt]
  omega

theorem mkHeaderRaw_length (gv : Nat) (b : Block) :
    (mkHeaderRaw gv b).length = headLen gv := by
  unfold mkHeaderRaw headLen
  by_cases h : gv = 0 ∨ 10032 ≤ gv
  · rw [if_pos h, if_neg (by omega)]
    simp [le32bytes]
  · rw [if_neg h, if_pos (by omega)]
    simp [le16bytes]

theorem headLen_ge (gv : Nat) : 8 ≤ headLen gv := by
  unfold headLen; split <;> omega

theorem mkHeaderRaw_split (gv : Nat) (b : Block) :
    (mkHeaderRaw gv b).take (headLen gv - 4) ++ [0, 0, 0, 0] = mkHeaderRaw gv b := by
  unfold mkHeaderRaw headLen
  by_cases h : gv = 0 ∨ 10032 ≤ gv
  · rw [if_pos h, if_neg (by omega)]
    simp [le32bytes]
  · rw [if_neg h, if_pos (by omega)]
    simp [le16bytes]

theorem mkHeader_length (gv : Nat) (b : Block) :
    (mkHeader gv b).length = headLen gv := by
  unfold mkHeader
  have h1 := mkHeaderRaw_length gv b
  have h2 := headLen_ge gv
  simp [le16bytes]
  omega



theorem mkHeader_modern (gv : Nat) (b : Block) (h : gv = 0 ∨ 10032 ≤ gv) :
    mkHeader gv b =
      le32bytes b.lenDeflate ++ le32bytes b.payload.length ++
        le16bytes (fold16 (checksumIEEE (mkHeaderRaw gv b))) ++
        le16bytes b.crcData16 := by
  unfold mkHeader mkHeaderRaw headLen
  rw [if_pos h, if_neg (show ¬(0 < gv ∧ gv < 10032) by omega)]
  simp [le32bytes]

theorem mkHeader_legacy (gv : Nat) (b : Block) (h : ¬(gv = 0 ∨ 10032 ≤ gv)) :
    mkHeader gv b =
      le16bytes b.lenDeflate ++ le16bytes b.payload.length ++
        le16bytes (fold16 (checksumIEEE (mkHeaderRaw gv b))) ++
        le16bytes b.crcData16 := by
  unfold mkHeader mkHeaderRaw headLen
  rw [if_neg h, if_pos (show 0 < gv ∧ gv < 10032 by omega)]
  simp [le16bytes]

theorem parse_modern (gv ld pl c1 c2 : Nat) (h : gv = 0 ∨ 10032 ≤ gv)
    (hld : ld < 4294967296) (hpl : pl < 4294967296)
    (hc1 : c1 < 65536) (hc2 : c2 < 65536) :
    parseHeader gv (le32bytes ld ++ le32bytes pl ++ le16bytes c1 ++ le16bytes c2) =
      (ld, pl, c1, c2) := by
  unfold parseHeader
  rw [if_pos h]
  simp [le32bytes, le16bytes, le32, le16, byteAt]
  refine ⟨by omega, by omega, by omega, by omega⟩

theorem parse_legacy (gv ld pl c1 c2 : Nat) (h : ¬(gv = 0 ∨ 10032 ≤ gv))
    (hld : ld < 65536) (hpl : pl < 65536)
    (hc1 : c1 < 65536) (hc2 : c2 < 65536) :
    parseHeader gv (le16bytes ld ++ le16bytes pl ++ le16bytes c1 ++ le16bytes c2) =
      (ld, pl, c1, c2) := by
  unfold parseHeader
  rw [if_neg h]
  simp [le16bytes, le16, byteAt]
  refine ⟨by omega, by omega, by omega, by omega⟩

theorem parse_mkHeader (gv : Nat) (b : Block) (hwf : wfBlock gv b) :
    parseHeader gv (mkHeader gv b) =
      (b.lenDeflate, b.payload.length,
       fold16 (checksumIEEE (mkHeaderRaw gv b)), b.crcData16) := by
  obtain ⟨hf, hld, hpl⟩ := hwf
  by_cases h : gv = 0 ∨ 10032 ≤ gv
  · rw [if_pos h] at hld hpl
    rw [mkHeader_modern gv b h]
    exact parse_modern gv _ _ _ _ h hld hpl (fold16_lt _) (fold16_lt _)
  · rw [if_neg h] at hld hpl
    rw [mkHeader_legacy gv b h]
    exact parse_legacy gv _ _ _ _ h hld hpl (fold16_lt _) (fold16_lt _)

theorem mkHeader_zeroed (gv : Nat) (b : Block) :
    (mkHeader gv b).take (headLen gv - 4) ++ [0, 0, 0, 0] = mkHeaderRaw gv b := by
  have h8 := headLen_ge gv
  have hraw := mkHeaderRaw_length gv b
  have hlen : ((mkHeaderRaw gv b).take (headLen gv - 4)).length = headLen gv - 4 := by
    rw [List.length_take, hraw]
    omega
  unfold mkHeader
  rw [List.append_assoc, List.take_left' hlen, mkHeaderRaw_split]



theorem encodeBlock_length (gv : Nat) (b : Block) (hwf : wfBlock gv b) :
    (encodeBlock gv b).length = headLen gv + zHDR + b.payload.length := by
  unfold encodeBlock Block.body
  simp [mkHeader_length, hwf.1]
  omega

theorem teeTake_front (d : Decompressor) (xs rest : List Nat) (k : Nat)
    (hsrc : d.src = xs ++ rest) (hk : xs.length = k) (hlim : k ≤ d.limN) :
    teeTake d k = (k, { d with src := rest, limN := d.limN - k,
                               crc := crc32digest d.crc xs }) := by
  unfold teeTake
  dsimp only
  rw [hsrc]
  have hmin : min k (min d.limN (xs ++ rest).length) = k := by
    rw [List.length_append, hk]
    omega
  rw [hmin, List.take_left' hk, List.drop_left' hk]

theorem zlibReset_ok (d : Decompressor) (fr rest : List Nat)
    (hsrc : d.src = fr ++ rest) (hf : fr.length = zHDR) (hlim : zHDR ≤ d.limN) :
    zlibReset d = ({ d with src := rest, limN := d.limN - zHDR,
                            crc := crc32digest d.crc fr }, none) := by
  unfold zlibReset
  rw [teeTake_front d fr rest zHDR hsrc hf hlim]
  simp

theorem nextBlock_open (d : Decompressor) (b : Block) (tail : List Nat)
    (hwf : wfBlock d.GameVersion b)
    (hsrc2 : d.src = mkHeader d.GameVersion b ++ (b.framing ++ tail))
    (hnb : ¬ d.NumBlocks = 0)
    (hclose : closeBlock d = none) :
    nextBlock d =
      ({ d with NumBlocks := d.NumBlocks - 1,
                SizeRead := u32 (u32 (d.SizeRead + headLen d.GameVersion) + zHDR),
                SizeBlock := b.payload.length,
                src := tail,
                limN := b.payload.length,
                crc := crc32digest crc32init b.framing,
                crcData := b.crcData16 }, none) := by
  obtain ⟨hf, hld, hpl⟩ := hwf
  have hz : zHDR = 2 := rfl
  have hmkl : (mkHeader d.GameVersion b).length = headLen d.GameVersion :=
    mkHeader_length _ b
  have hsrc' : d.src = mkHeader d.GameVersion b ++ (b.framing ++ tail) := hsrc2
  have hlen : ¬ d.src.length < headLen d.GameVersion := by
    rw [hsrc']; simp [hmkl]
  have htake : List.take (headLen d.GameVersion) d.src = mkHeader d.GameVersion b := by
    rw [hsrc', List.take_left' hmkl]
  have hdrop : List.drop (headLen d.GameVersion) d.src = b.framing ++ tail := by
    rw [hsrc', List.drop_left' hmkl]
  have hparse : parseHeader d.GameVersion (mkHeader d.GameVersion b) =
      (b.lenDeflate, b.payload.length,
       fold16 (checksumIEEE (mkHeaderRaw d.GameVersion b)), b.crcData16) :=
    parse_mkHeader _ b ⟨hf, hld, hpl⟩
  have hldz : b.lenDeflate = zHDR + b.payload.length := by
    unfold Block.lenDeflate; omega
  unfold nextBlock
  rw [if_neg hnb, hclose]
  dsimp only
  rw [if_neg hlen, htake, hdrop, hparse]
  dsimp only
  rw [mkHeader_zeroed]
  rw [if_neg (by simp)]
  rw [zlibReset_ok _ b.framing tail rfl hf (by dsimp only; omega)]
  dsimp only
  have harith1 : b.lenDeflate - (b.lenDeflate - zHDR) = zHDR := by omega
  have harith2 : b.lenDeflate - zHDR = b.payload.length := by omega
  rw [harith1, harith2]

theorem nextBlock_wf (d : Decompressor) (b : Block) (rest : List Nat)
    (hwf : wfBlock d.GameVersion b)
    (hsrc : d.src = encodeBlock d.GameVersion b ++ rest)
    (hnb : ¬ d.NumBlocks = 0)
    (hclose : closeBlock d = none) :
    nextBlock d =
      ({ d with NumBlocks := d.NumBlocks - 1,
                SizeRead := u32 (u32 (d.SizeRead + headLen d.GameVersion) + zHDR),
                SizeBlock := b.payload.length,
                src := b.payload ++ rest,
                limN := b.payload.length,
                crc := crc32digest crc32init b.framing,
                crcData := b.crcData16 }, none) := by
  apply nextBlock_open d b (b.payload ++ rest) hwf ?_ hnb hclose
  rw [hsrc]
  unfold encodeBlock Block.body
  simp



theorem teeTake_all (d : Decompressor) (xs rest : List Nat) (k : Nat)
    (hsrc : d.src = xs ++ rest) (hlim : d.limN = xs.length) (hk : xs.length ≤ k) :
    teeTake d k = (xs.length, { d with src := rest, limN := 0,
                                       crc := crc32digest d.crc xs }) := by
  unfold teeTake
  dsimp only
  rw [hsrc]
  have hmin : min k (min d.limN (xs ++ rest).length) = xs.length := by
    rw [List.length_append, hlim]
    omega
  rw [hmin, List.take_left, List.drop_left, hlim]
  simp

theorem closeBlock_ok (d : Decompressor) (h1 : d.SizeBlock = 0) (h2 : d.limN = 0)
    (h3 : d.crcData = fold16 (sum32 d.crc)) : closeBlock d = none := by
  unfold closeBlock
  rw [if_neg (by omega), if_neg (by simp [h3])]

theorem payload_lt32 (gv : Nat) (b : Block) (hwf : wfBlock gv b) :
    b.payload.length < 4294967296 ∧ b.lenDeflate < 4294967296 := by
  obtain ⟨hf, hld, hpl⟩ := hwf
  constructor <;> (split at hld <;> split at hpl <;> omega)

theorem readStep_block_more (d : Decompressor) (b : Block) (rest : List Nat) (n l : Nat)
    (hwf : wfBlock d.GameVersion b)
    (hsrc : d.src = encodeBlock d.GameVersion b ++ rest)
    (hsb : d.SizeBlock = 0)
    (hnb : ¬ d.NumBlocks = 0)
    (hclose : closeBlock d = none)
    (hinv : l = n + d.SizeTotal)
    (hmore : b.payload.length < d.SizeTotal)
    (hsr : d.SizeRead + headLen d.GameVersion + b.lenDeflate < 4294967296)
    (hT : d.SizeTotal < 4294967296) :
    readStep d n l = .inr (n + b.payload.length,
      { d with NumBlocks := d.NumBlocks - 1,
               SizeRead := d.SizeRead + headLen d.GameVersion + b.lenDeflate,
               SizeTotal := d.SizeTotal - b.payload.length,
               SizeBlock := 0,
               src := rest, limN := 0,
               crc := crc32digest crc32init b.body,
               crcData := b.crcData16 }) := by
  have hz : zHDR = 2 := rfl
  have hldz : b.lenDeflate = zHDR + b.payload.length := by
    unfold Block.lenDeflate; rw [hwf.1]
  have hp32 := payload_lt32 _ b hwf
  unfold readStep
  rw [if_pos hsb, nextBlock_wf d b rest hwf hsrc hnb hclose]
  dsimp only
  unfold zReadFull
  rw [teeTake_all _ b.payload rest (l - n) rfl rfl (by omega)]
  dsimp only
  rw [if_neg (show ¬ b.payload.length = l - n by omega)]
  dsimp only
  have hSB : sub32 b.payload.length b.payload.length = 0 := by
    unfold sub32; omega
  have hST : sub32 d.SizeTotal b.payload.length = d.SizeTotal - b.payload.length :=
    sub32_small _ _ (by omega) hT
  have hSR : u32 (u32 (u32 (d.SizeRead + headLen d.GameVersion) + zHDR) +
      (b.payload.length - 0)) = d.SizeRead + headLen d.GameVersion + b.lenDeflate := by
    unfold u32; omega
  have hcrc : crc32digest (crc32digest crc32init b.framing) b.payload =
      crc32digest crc32init b.body := by
    unfold Block.body crc32digest
    rw [List.foldl_append]
  rw [hSB, hST, hSR, hcrc]
  rw [closeBlock_ok _ rfl rfl rfl]



theorem crc32digest_append (c : Nat) (xs ys : List Nat) :
    crc32digest c (xs ++ ys) = crc32digest (crc32digest c xs) ys := by
  unfold crc32digest
  rw [List.foldl_append]

theorem drainZ_all (d : Decompressor) (xs rest : List Nat)
    (hsrc : d.src = xs ++ rest) (hlim : d.limN = xs.length) :
    drainZ d = { d with src := rest, limN := 0,
                        crc := crc32digest d.crc xs,
                        SizeBlock := sub32 d.SizeBlock xs.length } := by
  unfold drainZ
  rw [teeTake_front d xs rest d.limN hsrc hlim.symm (le_refl _)]
  dsimp only
  rw [Nat.sub_self, hlim]

theorem readStep_block_last (d : Decompressor) (b : Block) (rest : List Nat) (n l : Nat)
    (hwf : wfBlock d.GameVersion b)
    (hsrc : d.src = encodeBlock d.GameVersion b ++ rest)
    (hsb : d.SizeBlock = 0)
    (hnb : ¬ d.NumBlocks = 0)
    (hclose : closeBlock d = none)
    (hinv : l = n + d.SizeTotal)
    (ht0 : 0 < d.SizeTotal)
    (htp : d.SizeTotal ≤ b.payload.length)
    (hsr : d.SizeRead + headLen d.GameVersion + b.lenDeflate < 4294967296)
    (hT : d.SizeTotal < 4294967296) :
    readStep d n l = .inr (l,
      { d with NumBlocks := d.NumBlocks - 1,
               SizeRead := d.SizeRead + headLen d.GameVersion + zHDR + d.SizeTotal,
               SizeTotal := 0,
               SizeBlock := 0,
               src := rest, limN := 0,
               crc := crc32digest crc32init b.body,
               crcData := b.crcData16 }) := by
  have hz : zHDR = 2 := rfl
  have hldz : b.lenDeflate = zHDR + b.payload.length := by
    unfold Block.lenDeflate; rw [hwf.1]
  have hp32 := payload_lt32 _ b hwf
  have hln : l - n = d.SizeTotal := by omega
  unfold readStep
  rw [if_pos hsb, nextBlock_wf d b rest hwf hsrc hnb hclose]
  dsimp only
  unfold zReadFull
  have hsplit : b.payload ++ rest =
      b.payload.take (l - n) ++ (b.payload.drop (l - n) ++ rest) := by
    rw [← List.append_assoc, List.take_append_drop]
  have htl : (b.payload.take (l - n)).length = l - n := by
    rw [List.length_take]; omega
  rw [teeTake_front _ (b.payload.take (l - n)) (b.payload.drop (l - n) ++ rest)
        (l - n) hsplit htl (by dsimp only; omega)]
  dsimp only
  rw [if_pos rfl]
  dsimp only
  have hST : sub32 d.SizeTotal (l - n) = 0 := by
    unfold sub32; omega
  have hSB : sub32 b.payload.length (l - n) = b.payload.length - d.SizeTotal := by
    unfold sub32; omega
  have hSR : u32 (u32 (u32 (d.SizeRead + headLen d.GameVersion) + zHDR) +
      (b.payload.length - (b.payload.length - (l - n)))) =
      d.SizeRead + headLen d.GameVersion + zHDR + d.SizeTotal := by
    unfold u32; omega
  rw [hST, hSB, hSR]
  have hnl : n + (l - n) = l := by omega
  by_cases hpe : d.SizeTotal = b.payload.length
  · -- the block is exactly the owed remainder: no drain
    have he : b.payload.length - d.SizeTotal = 0 := by omega
    have hlim0 : b.payload.length - (l - n) = 0 := by omega
    have htake : List.take (l - n) b.payload = b.payload := by
      apply List.take_of_length_le
      omega
    have hdrop : List.drop (l - n) b.payload = [] := by
      apply List.drop_eq_nil_of_le
      omega
    have hcrc : crc32digest (crc32digest crc32init b.framing) b.payload =
        crc32digest crc32init b.body := (crc32digest_append _ _ _).symm
    rw [he, hlim0, htake, hdrop]
    rw [if_neg (show ¬((0:Nat) = 0 ∧ (0:Nat) < 0) by simp)]
    dsimp only
    rw [if_neg (show ¬((0:Nat) < 0) by omega)]
    rw [List.nil_append, hcrc, closeBlock_ok _ rfl rfl rfl]
    dsimp only
    rw [hnl]
  · -- over-declared final block: the excess is drained and checksummed
    have he : 0 < b.payload.length - d.SizeTotal := by omega
    rw [if_pos (show (0:Nat) = 0 ∧ 0 < b.payload.length - d.SizeTotal from ⟨rfl, he⟩)]
    rw [drainZ_all _ (List.drop (l - n) b.payload) rest rfl
          (by dsimp only; rw [List.length_drop])]
    dsimp only
    have hSB2 : sub32 (b.payload.length - d.SizeTotal)
        (List.drop (l - n) b.payload).length = 0 := by
      rw [List.length_drop]
      unfold sub32
      omega
    have hcrc2 : crc32digest
        (crc32digest (crc32digest crc32init b.framing) (List.take (l - n) b.payload))
        (List.drop (l - n) b.payload) = crc32digest crc32init b.body := by
      rw [← crc32digest_append, List.take_append_drop]
      exact (crc32digest_append _ _ _).symm
    rw [hSB2, hcrc2]
    rw [if_neg (show ¬((0:Nat) < 0) by omega)]
    rw [closeBlock_ok _ rfl rfl rfl]
    dsimp only
    rw [hnl]



theorem readLoop_cont (fuel : Nat) (d d' : Decompressor) (n n' l : Nat)
    (hne : ¬ n = l) (hs : readStep d n l = .inr (n', d')) :
    readLoop (fuel + 1) d n l = readLoop fuel d' n' l := by
  conv_lhs => unfold readLoop
  rw [if_neg hne, hs]

theorem readLoop_exit (fuel : Nat) (d : Decompressor) (l : Nat) :
    readLoop (fuel + 1) d l l = (l, d, none) := by
  conv_lhs => unfold readLoop
  rw [if_pos rfl]

theorem readLoop_inl (fuel : Nat) (d : Decompressor) (n l : Nat)
    (r : Nat × Decompressor × Option DErr)
    (hne : ¬ n = l) (hs : readStep d n l = .inl r) :
    readLoop (fuel + 1) d n l = r := by
  conv_lhs => unfold readLoop
  rw [if_neg hne, hs]

theorem encodeStream_cons (gv : Nat) (b : Block) (bs : List Block) :
    encodeStream gv (b :: bs) = encodeBlock gv b ++ encodeStream gv bs := by
  unfold encodeStream
  simp

theorem totalPayload_nil : totalPayload [] = 0 := rfl

theorem totalPayload_cons (b : Block) (bs : List Block) :
    totalPayload (b :: bs) = b.payload.length + totalPayload bs := by
  unfold totalPayload
  simp

theorem totalSizeRead_nil (gv : Nat) : totalSizeRead gv [] = 0 := rfl

theorem totalSizeRead_cons (gv : Nat) (b : Block) (bs : List Block) :
    totalSizeRead gv (b :: bs) =
      (headLen gv + b.lenDeflate) + totalSizeRead gv bs := by
  unfold totalSizeRead
  simp

theorem readLoop_front (gv : Nat) (bs : List Block) :
    ∀ (fuel : Nat) (d : Decompressor) (n l : Nat) (rest : List Nat),
    d.GameVersion = gv →
    (∀ b ∈ bs, wfBlock gv b) →
    d.src = encodeStream gv bs ++ rest →
    d.SizeBlock = 0 →
    closeBlock d = none →
    bs.length ≤ d.NumBlocks →
    totalPayload bs < d.SizeTotal →
    l = n + d.SizeTotal →
    d.SizeRead + totalSizeRead gv bs < 4294967296 →
    d.SizeTotal < 4294967296 →
    ∃ d' : Decompressor,
      readLoop (fuel + bs.length) d n l = readLoop fuel d' (n + totalPayload bs) l ∧
      d'.GameVersion = gv ∧
      d'.src = rest ∧
      d'.SizeBlock = 0 ∧
      closeBlock d' = none ∧
      d'.NumBlocks = d.NumBlocks - bs.length ∧
      d'.SizeTotal = d.SizeTotal - totalPayload bs ∧
      d'.SizeRead = d.SizeRead + totalSizeRead gv bs := by
  induction bs with
  | nil =>
    intro fuel d n l rest hgv hwf hsrc hsb hclose hnb htp hinv hsr hT
    refine ⟨d, ?_, hgv, ?_, hsb, hclose, by simp, by simp [totalPayload_nil], by simp [totalSizeRead_nil]⟩
    · simp [totalPayload_nil]
    · simpa [encodeStream] using hsrc
  | cons b bs ih =>
    intro fuel d n l rest hgv hwf hsrc hsb hclose hnb htp hinv hsr hT
    rw [totalPayload_cons] at htp
    rw [totalSizeRead_cons] at hsr
    have hwfb : wfBlock d.GameVersion b := hgv ▸ hwf b (by simp)
    have hwfAll : ∀ x ∈ bs, wfBlock gv x := fun x hx => hwf x (List.mem_cons_of_mem _ hx)
    have hsrc1 : d.src = encodeBlock d.GameVersion b ++ (encodeStream gv bs ++ rest) := by
      rw [hsrc, encodeStream_cons, List.append_assoc, hgv]
    have hnbl : (b :: bs).length = bs.length + 1 := by simp
    have hnb1 : ¬ d.NumBlocks = 0 := by omega
    have hmore : b.payload.length < d.SizeTotal := by omega
    have hsr1 : d.SizeRead + headLen d.GameVersion + b.lenDeflate < 4294967296 := by
      rw [hgv]
      omega
    have hstep := readStep_block_more d b (encodeStream gv bs ++ rest) n l hwfb hsrc1
      hsb hnb1 hclose hinv hmore hsr1 hT
    have hne : ¬ n = l := by omega
    have hloop := readLoop_cont (fuel + bs.length) d _ n _ l hne hstep
    obtain ⟨d', hl, hg', hs', hb', hc', hn', ht', hr'⟩ :=
      ih fuel
        { d with NumBlocks := d.NumBlocks - 1,
                 SizeRead := d.SizeRead + headLen d.GameVersion + b.lenDeflate,
                 SizeTotal := d.SizeTotal - b.payload.length,
                 SizeBlock := 0,
                 src := encodeStream gv bs ++ rest, limN := 0,
                 crc := crc32digest crc32init b.body,
                 crcData := b.crcData16 }
        (n + b.payload.length) l rest hgv hwfAll rfl rfl
        (closeBlock_ok _ rfl rfl rfl)
        (by show bs.length ≤ d.NumBlocks - 1; omega)
        (by show totalPayload bs < d.SizeTotal - b.payload.length; omega)
        (by show l = n + b.payload.length + (d.SizeTotal - b.payload.length); omega)
        (by show d.SizeRead + headLen d.GameVersion + b.lenDeflate + totalSizeRead gv bs <
              4294967296
            rw [hgv]; omega)
        (by show d.SizeTotal - b.payload.length < 4294967296; omega)
    dsimp only at hn' ht' hr'
    refine ⟨d', ?_, hg', hs', hb', hc', ?_, ?_, ?_⟩
    · have harg : n + b.payload.length + totalPayload bs = n + totalPayload (b :: bs) := by
        rw [totalPayload_cons]; omega
      rw [hnbl, ← Nat.add_assoc]
      rw [← harg]
      exact hloop.trans hl
    · rw [hn', hnbl]
      omega
    · rw [ht', totalPayload_cons]
      omega
    · rw [hr', totalSizeRead_cons, hgv]
      omega



theorem encodeStream_concat (gv : Nat) (front : List Block) (b : Block) :
    encodeStream gv (front ++ [b]) = encodeStream gv front ++ encodeBlock gv b := by
  unfold encodeStream
  rw [List.map_append, List.flatten_append]
  simp

theorem totalPayload_concat (front : List Block) (b : Block) :
    totalPayload (front ++ [b]) = totalPayload front + b.payload.length := by
  unfold totalPayload
  rw [List.map_append, List.sum_append]
  simp

theorem totalSizeRead_concat (gv : Nat) (front : List Block) (b : Block) :
    totalSizeRead gv (front ++ [b]) =
      totalSizeRead gv front + (headLen gv + b.lenDeflate) := by
  unfold totalSizeRead
  rw [List.map_append, List.sum_append]
  simp

theorem closeBlock_new (gv : Nat) (src : List Nat) (nb t : Nat) :
    closeBlock (NewDecompressor gv src nb t) = none :=
  closeBlock_ok _ rfl rfl (by show (0:Nat) = fold16 (sum32 crc32init); decide)

theorem read_drain (gv : Nat) (front : List Block) (b : Block) (total bufLen : Nat)
    (hwf : ∀ x ∈ front ++ [b], wfBlock gv x)
    (hlow : totalPayload front < total)
    (hhigh : total ≤ totalPayload front + b.payload.length)
    (hbuf : total ≤ bufLen)
    (hsr : totalSizeRead gv (front ++ [b]) < 4294967296)
    (hT : total < 4294967296) :
    ∃ dF : Decompressor,
      (NewDecompressor gv (encodeStream gv (front ++ [b]))
          (front ++ [b]).length total).Read bufLen = (total, dF, none) ∧
      dF.SizeRead =
        totalSizeRead gv front + headLen gv + zHDR + (total - totalPayload front) ∧
      dF.SizeBlock = 0 ∧ dF.limN = 0 ∧ dF.src = [] ∧ dF.SizeTotal = 0 ∧
      dF.NumBlocks = 0 ∧ closeBlock dF = none := by
  have hwfb : wfBlock gv b := hwf b (by simp)
  have hwfF : ∀ x ∈ front, wfBlock gv x := fun x hx => hwf x (by simp [hx])
  rw [totalSizeRead_concat] at hsr
  unfold Decompressor.Read
  rw [if_neg (by show ¬ total = 0; omega)]
  have hmin : min bufLen (NewDecompressor gv (encodeStream gv (front ++ [b]))
      (front ++ [b]).length total).SizeTotal = total := by
    show min bufLen total = total
    omega
  rw [hmin]
  have hnum : (NewDecompressor gv (encodeStream gv (front ++ [b]))
      (front ++ [b]).length total).NumBlocks = front.length + 1 := by
    show (front ++ [b]).length = front.length + 1
    simp
  rw [hnum]
  obtain ⟨d', hl, hg', hs', hb', hc', hn', ht', hr'⟩ :=
    readLoop_front gv front 4
      (NewDecompressor gv (encodeStream gv (front ++ [b])) (front ++ [b]).length total)
      0 total (encodeBlock gv b)
      rfl hwfF
      (by show encodeStream gv (front ++ [b]) = encodeStream gv front ++ encodeBlock gv b
          exact encodeStream_concat gv front b)
      rfl (closeBlock_new _ _ _ _)
      (by show front.length ≤ (front ++ [b]).length; simp)
      (by show totalPayload front < total; omega)
      (by show total = 0 + total; omega)
      (by show 0 + totalSizeRead gv front < 4294967296; omega)
      (by show total < 4294967296; omega)
  dsimp only [NewDecompressor] at hn' ht' hr'
  have hfuel : front.length + 1 + 3 = 4 + front.length := by omega
  rw [hfuel, hl]
  have hnb1 : ¬ d'.NumBlocks = 0 := by
    rw [hn']
    simp
  have hstep := readStep_block_last d' b [] (0 + totalPayload front) total
    (hg' ▸ hwfb) (by rw [hs', List.append_nil, hg']) hb' hnb1 hc'
    (by omega) (by omega) (by rw [ht']; omega)
    (by rw [hr', hg']; omega) (by rw [ht']; omega)
  have hne : ¬ 0 + totalPayload front = total := by omega
  rw [readLoop_cont 3 d' _ _ _ total hne hstep]
  rw [readLoop_exit 2]
  refine ⟨_, rfl, ?_, rfl, rfl, rfl, rfl, ?_, closeBlock_ok _ rfl rfl rfl⟩
  · show d'.SizeRead + headLen d'.GameVersion + zHDR + d'.SizeTotal = _
    rw [hr', hg', ht']
    omega
  · show d'.NumBlocks - 1 = 0
    rw [hn']
    simp


theorem totalPayload_le_totalSizeRead (gv : Nat) (bs : List Block) :
    totalPayload bs ≤ totalSizeRead gv bs := by
  induction bs with
  | nil => simp [totalPayload, totalSizeRead]
  | cons b bs ih =>
    rw [totalPayload_cons, totalSizeRead_cons]
    have : b.payload.length ≤ b.lenDeflate := by
      unfold Block.lenDeflate
      omega
    omega

/-- C2 (amended): after a well-formed stream (nonempty, final payload
nonempty, total equal to the sum of the blocks' decompressed sizes) is
fully drained through Read, the diagnostic compressed-byte counter
SizeRead equals the sum over blocks of the block-header size plus the
block's declared compressed length; the fixed engine framing overhead is
contained in the declared compressed length, not added to it. -/
theorem c2_amended_sizeread (gv : Nat) (front : List Block) (b : Block) (bufLen : Nat)
    (hwf : ∀ x ∈ front ++ [b], wfBlock gv x)
    (hpb : b.payload.length ≠ 0)
    (hbuf : totalPayload (front ++ [b]) ≤ bufLen)
    (hsr : totalSizeRead gv (front ++ [b]) < 4294967296) :
    ((NewDecompressor gv (encodeStream gv (front ++ [b]))
        (front ++ [b]).length (totalPayload (front ++ [b]))).Read bufLen).1 =
      totalPayload (front ++ [b]) ∧
    ((NewDecompressor gv (encodeStream gv (front ++ [b]))
        (front ++ [b]).length (totalPayload (front ++ [b]))).Read bufLen).2.2 = none ∧
    ((NewDecompressor gv (encodeStream gv (front ++ [b]))
        (front ++ [b]).length (totalPayload (front ++ [b]))).Read bufLen).2.1.SizeRead =
      totalSizeRead gv (front ++ [b]) := by
  have hwfb : wfBlock gv b := hwf b (by simp)
  have hle := totalPayload_le_totalSizeRead gv (front ++ [b])
  have hpc := totalPayload_concat front b
  obtain ⟨dF, hread, hsread, _, _, _, _, _, _⟩ :=
    read_drain gv front b (totalPayload (front ++ [b])) bufLen hwf
      (by omega) (by omega) hbuf hsr (by omega)
  rw [hread]
  refine ⟨rfl, rfl, ?_⟩
  dsimp only
  rw [hsread, totalSizeRead_concat]
  have hld : b.lenDeflate = zHDR + b.payload.length := by
    unfold Block.lenDeflate
    rw [hwfb.1]
  omega

/-- C3: when the final block declares more decompressed bytes than the
still-owed total, Read delivers exactly the owed total with no error, and
the excess declared bytes of the final block are drained without being
returned: afterwards the block's decompressed and compressed budgets are
both exhausted, the source is fully consumed, and the close-block
payload-checksum check (closeBlock) passes over the fully consumed
block. -/
theorem c3_final_block_drain (gv : Nat) (front : List Block) (b : Block) (total bufLen : Nat)
    (hwf : ∀ x ∈ front ++ [b], wfBlock gv x)
    (hlow : totalPayload front < total)
    (hover : total < totalPayload front + b.payload.length)
    (hbuf : total ≤ bufLen)
    (hsr : totalSizeRead gv (front ++ [b]) < 4294967296)
    (hT : total < 4294967296) :
    ((NewDecompressor gv (encodeStream gv (front ++ [b]))
        (front ++ [b]).length total).Read bufLen).1 = total ∧
    ((NewDecompressor gv (encodeStream gv (front ++ [b]))
        (front ++ [b]).length total).Read bufLen).2.2 = none ∧
    ((NewDecompressor gv (encodeStream gv (front ++ [b]))
        (front ++ [b]).length total).Read bufLen).2.1.SizeBlock = 0 ∧
    ((NewDecompressor gv (encodeStream gv (front ++ [b]))
        (front ++ [b]).length total).Read bufLen).2.1.limN = 0 ∧
    ((NewDecompressor gv (encodeStream gv (front ++ [b]))
        (front ++ [b]).length total).Read bufLen).2.1.src = [] ∧
    closeBlock ((NewDecompressor gv (encodeStream gv (front ++ [b]))
        (front ++ [b]).length total).Read bufLen).2.1 = none := by
  obtain ⟨dF, hread, _, hsb, hlim, hsrc, _, _, hclose⟩ :=
    read_drain gv front b total bufLen hwf hlow (by omega) hbuf hsr hT
  rw [hread]
  exact ⟨rfl, rfl, hsb, hlim, hsrc, hclose⟩



theorem teeTake_srcAll (d : Decompressor) (k : Nat)
    (hlim : d.src.length ≤ d.limN) (hk : d.src.length ≤ k) :
    teeTake d k = (d.src.length, { d with src := [], limN := d.limN - d.src.length,
                                          crc := crc32digest d.crc d.src }) := by
  unfold teeTake
  dsimp only
  have hmin : min k (min d.limN d.src.length) = d.src.length := by omega
  rw [hmin, List.take_length, List.drop_length]

theorem closeBlock_err (d : Decompressor) (h : 0 < d.SizeBlock ∨ 0 < d.limN) :
    closeBlock d = some DErr.unexpectedEOF := by
  unfold closeBlock
  rw [if_pos h]

theorem nextBlock_trunc_header (d : Decompressor) (m : Nat)
    (hlen : d.src.length = m) (hm0 : ¬ m = 0) (hm1 : m < headLen d.GameVersion)
    (hnb : ¬ d.NumBlocks = 0) (hclose : closeBlock d = none) :
    nextBlock d = ({ d with
                     NumBlocks := d.NumBlocks - 1
                     SizeRead := u32 (d.SizeRead + m)
                     src := [] },
                   some DErr.unexpectedEOF) := by
  unfold nextBlock
  rw [if_neg hnb, hclose]
  dsimp only
  rw [if_pos (by omega), hlen]
  rw [if_neg hm0]

theorem nextBlock_trunc_framing (d : Decompressor) (b : Block) (fr2 : List Nat)
    (hwf : wfBlock d.GameVersion b)
    (hsrc2 : d.src = mkHeader d.GameVersion b ++ fr2)
    (hfr2 : fr2.length < zHDR)
    (hnb : ¬ d.NumBlocks = 0) (hclose : closeBlock d = none) :
    ∃ d' : Decompressor, nextBlock d = (d', some DErr.unexpectedEOF) := by
  obtain ⟨hf, hld, hpl⟩ := hwf
  have hz : zHDR = 2 := rfl
  have hldz : b.lenDeflate = zHDR + b.payload.length := by
    unfold Block.lenDeflate
    omega
  have hmkl : (mkHeader d.GameVersion b).length = headLen d.GameVersion :=
    mkHeader_length _ b
  have hlen : ¬ d.src.length < headLen d.GameVersion := by
    rw [hsrc2]
    simp [hmkl]
  have htake : List.take (headLen d.GameVersion) d.src = mkHeader d.GameVersion b := by
    rw [hsrc2, List.take_left' hmkl]
  have hdrop : List.drop (headLen d.GameVersion) d.src = fr2 := by
    rw [hsrc2, List.drop_left' hmkl]
  have hparse : parseHeader d.GameVersion (mkHeader d.GameVersion b) =
      (b.lenDeflate, b.payload.length,
       fold16 (checksumIEEE (mkHeaderRaw d.GameVersion b)), b.crcData16) :=
    parse_mkHeader _ b ⟨hf, hld, hpl⟩
  unfold nextBlock
  rw [if_neg hnb, hclose]
  dsimp only
  rw [if_neg hlen, htake, hdrop, hparse]
  dsimp only
  rw [mkHeader_zeroed]
  rw [if_neg (by simp)]
  unfold zlibReset
  rw [teeTake_srcAll _ zHDR (by dsimp only; omega) (by dsimp only; omega)]
  dsimp only
  rw [if_neg (show ¬ fr2.length = zHDR by omega)]
  exact ⟨_, rfl⟩



theorem readStep_truncated (d : Decompressor) (b : Block) (n l m : Nat)
    (hwf : wfBlock d.GameVersion b)
    (hsrc : d.src = (encodeBlock d.GameVersion b).take m)
    (hm0 : 0 < m)
    (hm1 : m < (encodeBlock d.GameVersion b).length)
    (hsb : d.SizeBlock = 0)
    (hnb : ¬ d.NumBlocks = 0)
    (hclose : closeBlock d = none)
    (hinv : l = n + d.SizeTotal)
    (hpt : b.payload.length ≤ d.SizeTotal)
    (ht0 : 0 < d.SizeTotal) :
    ∃ n' d', readStep d n l = .inl (n', d', some DErr.unexpectedEOF) ∧ n' < l := by
  have hz : zHDR = 2 := rfl
  have hf := hwf.1
  have hp32 := payload_lt32 _ b hwf
  have helen : (encodeBlock d.GameVersion b).length =
      headLen d.GameVersion + zHDR + b.payload.length := encodeBlock_length _ b hwf
  have hmkl : (mkHeader d.GameVersion b).length = headLen d.GameVersion :=
    mkHeader_length _ b
  have hencode : encodeBlock d.GameVersion b =
      mkHeader d.GameVersion b ++ (b.framing ++ b.payload) := rfl
  by_cases hc1 : m < headLen d.GameVersion
  · -- truncated inside the block header
    have hlen2 : d.src.length = m := by
      rw [hsrc, List.length_take]
      omega
    unfold readStep
    rw [if_pos hsb, nextBlock_trunc_header d m hlen2 (by omega) hc1 hnb hclose]
    dsimp only
    exact ⟨n, _, rfl, by omega⟩
  · by_cases hc2 : m < headLen d.GameVersion + zHDR
    · -- truncated inside the engine framing header
      have hsrc2 : d.src = mkHeader d.GameVersion b ++ (b.framing.take (m - headLen d.GameVersion)) := by
        rw [hsrc, hencode]
        have hm : m = (mkHeader d.GameVersion b).length + (m - headLen d.GameVersion) := by
          rw [hmkl]; omega
        conv_lhs => rw [hm, List.take_append]
        congr 1
        apply List.take_append_of_le_length
        omega
      obtain ⟨d', hnx⟩ := nextBlock_trunc_framing d b _ hwf hsrc2
        (by rw [List.length_take]; omega) hnb hclose
      unfold readStep
      rw [if_pos hsb, hnx]
      dsimp only
      exact ⟨n, d', rfl, by omega⟩
    · -- truncated inside the payload
      have hq : m - headLen d.GameVersion - zHDR < b.payload.length := by omega
      have hsrc3 : d.src = mkHeader d.GameVersion b ++
          (b.framing ++ b.payload.take (m - headLen d.GameVersion - zHDR)) := by
        rw [hsrc, hencode]
        have hm : m = (mkHeader d.GameVersion b).length +
            (b.framing.length + (m - headLen d.GameVersion - zHDR)) := by
          rw [hmkl, hf]; omega
        conv_lhs => rw [hm, List.take_append, List.take_append]
      unfold readStep
      rw [if_pos hsb, nextBlock_open d b _ hwf hsrc3 hnb hclose]
      dsimp only
      unfold zReadFull
      rw [teeTake_srcAll _ (l - n)
            (by dsimp only; rw [List.length_take]; omega)
            (by dsimp only; rw [List.length_take]; omega)]
      dsimp only
      have hql : (b.payload.take (m - headLen d.GameVersion - zHDR)).length =
          m - headLen d.GameVersion - zHDR := by
        rw [List.length_take]; omega
      rw [hql]
      rw [if_neg (show ¬ m - headLen d.GameVersion - zHDR = l - n by omega)]
      dsimp only
      rw [closeBlock_err _ (by
            dsimp only
            left
            rw [sub32_small _ _ (by omega) (by omega)]
            omega)]
      exact ⟨_, _, rfl, by omega⟩



theorem totalPayload_append (xs ys : List Block) :
    totalPayload (xs ++ ys) = totalPayload xs + totalPayload ys := by
  unfold totalPayload
  rw [List.map_append, List.sum_append]

/-- C7 (amended): for a well-formed stream whose declared total equals the
sum of its blocks' decompressed sizes, truncating the input strictly
inside any block (so that bytes are still owed from that block on) makes
reading the session to exhaustion fail with io.ErrUnexpectedEOF, with
fewer than the declared total bytes delivered — never a clean
end-of-stream.  (The unamended claim fails when the truncated session's
owed total is already satisfiable, see the counterexample.) -/
theorem c7_amended_truncation (gv : Nat) (front tail : List Block) (b : Block) (m bufLen : Nat)
    (hwf : ∀ x ∈ front ++ b :: tail, wfBlock gv x)
    (hm0 : 0 < m)
    (hm1 : m < (encodeBlock gv b).length)
    (howed : 0 < b.payload.length + totalPayload tail)
    (hbuf : totalPayload (front ++ b :: tail) ≤ bufLen)
    (hsr : totalSizeRead gv front < 4294967296)
    (hT : totalPayload (front ++ b :: tail) < 4294967296) :
    ((NewDecompressor gv (encodeStream gv front ++ (encodeBlock gv b).take m)
        (front ++ b :: tail).length (totalPayload (front ++ b :: tail))).Read
        bufLen).2.2 = some DErr.unexpectedEOF ∧
    ((NewDecompressor gv (encodeStream gv front ++ (encodeBlock gv b).take m)
        (front ++ b :: tail).length (totalPayload (front ++ b :: tail))).Read
        bufLen).1 < totalPayload (front ++ b :: tail) := by
  have hwfb : wfBlock gv b := hwf b (by simp)
  have hwfF : ∀ x ∈ front, wfBlock gv x := fun x hx => hwf x (by simp [hx])
  have hpc : totalPayload (front ++ b :: tail) =
      totalPayload front + (b.payload.length + totalPayload tail) := by
    rw [totalPayload_append, totalPayload_cons]
  have hlenc : (front ++ b :: tail).length = front.length + (tail.length + 1) := by
    simp
  unfold Decompressor.Read
  rw [if_neg (by show ¬ totalPayload (front ++ b :: tail) = 0; omega)]
  have hmin : min bufLen (NewDecompressor gv
      (encodeStream gv front ++ (encodeBlock gv b).take m)
      (front ++ b :: tail).length (totalPayload (front ++ b :: tail))).SizeTotal =
      totalPayload (front ++ b :: tail) := by
    show min bufLen (totalPayload (front ++ b :: tail)) = _
    omega
  rw [hmin]
  have hnum : (NewDecompressor gv (encodeStream gv front ++ (encodeBlock gv b).take m)
      (front ++ b :: tail).length (totalPayload (front ++ b :: tail))).NumBlocks =
      front.length + (tail.length + 1) := hlenc
  rw [hnum]
  obtain ⟨d', hl, hg', hs', hb', hc', hn', ht', hr'⟩ :=
    readLoop_front gv front (tail.length + 4)
      (NewDecompressor gv (encodeStream gv front ++ (encodeBlock gv b).take m)
        (front ++ b :: tail).length (totalPayload (front ++ b :: tail)))
      0 (totalPayload (front ++ b :: tail)) ((encodeBlock gv b).take m)
      rfl hwfF rfl rfl (closeBlock_new _ _ _ _)
      (by show front.length ≤ (front ++ b :: tail).length; simp)
      (by show totalPayload front < totalPayload (front ++ b :: tail); omega)
      (by show totalPayload (front ++ b :: tail) =
            0 + (totalPayload (front ++ b :: tail)); omega)
      (by show 0 + totalSizeRead gv front < 4294967296; omega)
      (by show totalPayload (front ++ b :: tail) < 4294967296; omega)
  dsimp only [NewDecompressor] at hn' ht' hr'
  have hfuel : front.length + (tail.length + 1) + 3 = tail.length + 4 + front.length := by
    omega
  rw [hfuel, hl]
  have hnb1 : ¬ d'.NumBlocks = 0 := by
    rw [hn', hlenc]
    omega
  obtain ⟨n', d'', hstep, hlt⟩ := readStep_truncated d' b (0 + totalPayload front)
    (totalPayload (front ++ b :: tail)) m (hg' ▸ hwfb) (by rw [hs', hg']) hm0
    (by rw [hg']; exact hm1) hb' hnb1 hc'
    (by rw [ht']; omega) (by rw [ht']; omega) (by rw [ht']; omega)
  have hne : ¬ 0 + totalPayload front = totalPayload (front ++ b :: tail) := by
    omega
  rw [show tail.length + 4 = (tail.length + 3) + 1 by omega]
  rw [readLoop_inl (tail.length + 3) d' _ _ _ hne hstep]
  exact ⟨rfl, hlt⟩



/-- C1 (amended): when a read is attempted while totalBytesRemaining > 0
but blocksRemaining = 0, the open-next-block step fails with io.EOF — the
clean end-of-stream indication — there being no distinct EndOfBlocks
error in the code. -/
theorem c1_amended_eof_on_exhausted_blocks (d : Decompressor) (bufLen : Nat)
    (ht : 0 < d.SizeTotal) (hsb : d.SizeBlock = 0) (hnb : d.NumBlocks = 0)
    (hbuf : 0 < bufLen) :
    d.Read bufLen = (0, d, some DErr.eof) := by
  unfold Decompressor.Read
  rw [if_neg (by omega)]
  rw [hnb]
  have hne : ¬ (0 : Nat) = min bufLen d.SizeTotal := by
    have : 0 < min bufLen d.SizeTotal := by omega
    omega
  have hstep : readStep d 0 (min bufLen d.SizeTotal) = .inl (0, d, some DErr.eof) := by
    unfold readStep
    rw [if_pos hsb]
    unfold nextBlock
    rw [if_pos hnb]
  exact readLoop_inl 2 d 0 _ _ hne hstep

/-- C6: the close-block check fails with UnexpectedEndOfData exactly when
the block's remaining decompressed count or its compressed budget is
nonzero; otherwise it folds the 32-bit checksum accumulator as low16 XOR
high16 and fails with InvalidChecksum exactly when the folded value
differs from the declared payload checksum, succeeding otherwise. -/
theorem c6_closeBlock_spec (d : Decompressor) :
    (closeBlock d = some DErr.unexpectedEOF ↔ 0 < d.SizeBlock ∨ 0 < d.limN) ∧
    (closeBlock d = some DErr.invalidChecksum ↔
      d.SizeBlock = 0 ∧ d.limN = 0 ∧ d.crcData ≠ fold16 (sum32 d.crc)) ∧
    (closeBlock d = none ↔
      d.SizeBlock = 0 ∧ d.limN = 0 ∧ d.crcData = fold16 (sum32 d.crc)) := by
  unfold closeBlock
  split_ifs with h1 h2
  · refine ⟨by simp [h1], ?_, ?_⟩
    · constructor
      · intro hx; exact absurd hx (by simp)
      · rintro ⟨ha, hb, _⟩; omega
    · constructor
      · intro hx; exact absurd hx (by simp)
      · rintro ⟨ha, hb, _⟩; omega
  · refine ⟨?_, by simp [h2]; omega, ?_⟩
    · constructor
      · intro hx; exact absurd hx (by simp)
      · intro hx; omega
    · constructor
      · intro hx; exact absurd hx (by simp)
      · rintro ⟨_, _, hc⟩; exact absurd hc h2
  · push_neg at h2
    refine ⟨?_, ?_, by simp; omega⟩
    · constructor
      · intro hx; exact absurd hx (by simp)
      · intro hx; omega
    · constructor
      · intro hx; exact absurd hx (by simp)
      · rintro ⟨_, _, hc⟩; exact absurd h2 hc



/-- C5: block-header layout selection.  A game version that is nonzero and
below the threshold 10032 selects the legacy 8-byte header with 16-bit
little-endian compressed and decompressed length fields; version zero or
at/above the threshold selects the modern 12-byte header with 32-bit
fields; in both layouts the header ends with the 16-bit header checksum
followed by the 16-bit payload checksum. -/
theorem c5_header_layout (gv b0 b1 b2 b3 b4 b5 b6 b7 b8 b9 b10 b11 : Nat)
    (h0 : b0 < 256) (h1 : b1 < 256) (h2 : b2 < 256) (h3 : b3 < 256)
    (h4 : b4 < 256) (h5 : b5 < 256) (h6 : b6 < 256) (h7 : b7 < 256)
    (h8 : b8 < 256) (h9 : b9 < 256) (h10 : b10 < 256) (h11 : b11 < 256) :
    (0 < gv ∧ gv < 10032 →
      headLen gv = 8 ∧
      parseHeader gv [b0, b1, b2, b3, b4, b5, b6, b7] =
        (b0 + 256 * b1, b2 + 256 * b3, b4 + 256 * b5, b6 + 256 * b7)) ∧
    ((gv = 0 ∨ 10032 ≤ gv) →
      headLen gv = 12 ∧
      parseHeader gv [b0, b1, b2, b3, b4, b5, b6, b7, b8, b9, b10, b11] =
        (b0 + 256 * b1 + 65536 * b2 + 16777216 * b3,
         b4 + 256 * b5 + 65536 * b6 + 16777216 * b7,
         b8 + 256 * b9, b10 + 256 * b11)) := by
  constructor
  · intro hg
    constructor
    · unfold headLen
      rw [if_pos hg]
    · unfold parseHeader
      rw [if_neg (by omega)]
      simp [le16, byteAt]
      refine ⟨by omega, by omega, by omega, by omega⟩
  · intro hg
    constructor
    · unfold headLen
      rw [if_neg (by omega)]
    · unfold parseHeader
      rw [if_pos hg]
      simp [le32, le16, byteAt]
      refine ⟨by omega, by omega, by omega, by omega⟩

/-- C8: over a stream decoding to exactly the records `recs`, ForEach
invokes the callback once per record in stream order and returns no
error; if the callback fails on a record, ForEach stops at once with that
error, having invoked the callback exactly on the preceding records plus
the failing one.  The first component of the result is the ordered list
of records the callback was invoked on. -/
theorem c8_forEach_spec {ρ ε : Type} (f : ρ → Option ε) (recs : List ρ) :
    ((∀ r ∈ recs, f r = none) →
      ForEach f (recs.map Except.ok) = (recs, none)) ∧
    (∀ pre r post e, recs = pre ++ r :: post → (∀ x ∈ pre, f x = none) →
      f r = some e →
      ForEach f (recs.map Except.ok) = (pre ++ [r], some e)) := by
  constructor
  · induction recs with
    | nil => intro h; rfl
    | cons a rs ih =>
      intro h
      have ha : f a = none := h a (by simp)
      show ForEach f (Except.ok a :: rs.map Except.ok) = _
      unfold ForEach
      rw [ha]
      dsimp only
      rw [ih (fun x hx => h x (by simp [hx]))]
  · intro pre
    induction pre generalizing recs with
    | nil =>
      intro r post e hrec hpre hr
      subst hrec
      show ForEach f (Except.ok r :: post.map Except.ok) = _
      unfold ForEach
      rw [hr]
      simp
    | cons a as ih =>
      intro r post e hrec hpre hr
      subst hrec
      show ForEach f (Except.ok a :: (as ++ r :: post).map Except.ok) = _
      unfold ForEach
      rw [hpre a (by simp)]
      dsimp only
      rw [ih (as ++ r :: post) r post e rfl (fun x hx => hpre x (by simp [hx])) hr]
      simp



/-- C4: the header-checksum validation of the open-next-block step
computes the 32-bit CRC over the raw header bytes with the two 16-bit
checksum fields zeroed, folds it to 16 bits as low16 XOR high16, and
fails with InvalidChecksum exactly on mismatch with the declared header
checksum; on mismatch a Read delivers zero bytes of that block and
surfaces InvalidChecksum. -/
theorem c4_header_checksum (d : Decompressor) (hdr rest : List Nat) (bufLen : Nat)
    (hsrc : d.src = hdr ++ rest)
    (hlen : hdr.length = headLen d.GameVersion)
    (hnb : ¬ d.NumBlocks = 0)
    (hclose : closeBlock d = none)
    (hsb : d.SizeBlock = 0)
    (ht : 0 < d.SizeTotal) (hbuf : 0 < bufLen) :
    ((nextBlock d).2 = some DErr.invalidChecksum ↔
      (parseHeader d.GameVersion hdr).2.2.1 ≠
        fold16 (checksumIEEE (hdr.take (headLen d.GameVersion - 4) ++ [0, 0, 0, 0]))) ∧
    ((parseHeader d.GameVersion hdr).2.2.1 ≠
        fold16 (checksumIEEE (hdr.take (headLen d.GameVersion - 4) ++ [0, 0, 0, 0])) →
      (d.Read bufLen).1 = 0 ∧ (d.Read bufLen).2.2 = some DErr.invalidChecksum) := by
  have hlennot : ¬ d.src.length < headLen d.GameVersion := by
    rw [hsrc]
    simp [hlen]
  have htake : d.src.take (headLen d.GameVersion) = hdr := by
    rw [hsrc, List.take_left' hlen]
  by_cases hm : (parseHeader d.GameVersion hdr).2.2.1 =
      fold16 (checksumIEEE (hdr.take (headLen d.GameVersion - 4) ++ [0, 0, 0, 0]))
  · -- header checksum matches: nextBlock cannot fail with InvalidChecksum
    have hnx : (nextBlock d).2 ≠ some DErr.invalidChecksum := by
      unfold nextBlock
      rw [if_neg hnb, hclose]
      dsimp only
      rw [if_neg hlennot, htake]
      rw [if_neg (by simpa using hm)]
      cases htt : teeTake { d with
          NumBlocks := d.NumBlocks - 1,
          SizeRead := u32 (d.SizeRead + headLen d.GameVersion),
          src := d.src.drop (headLen d.GameVersion),
          SizeBlock := (parseHeader d.GameVersion hdr).2.1,
          limN := (parseHeader d.GameVersion hdr).1,
          crc := crc32init,
          crcData := (parseHeader d.GameVersion hdr).2.2.2 } zHDR with
      | mk nn d4 =>
        unfold zlibReset
        rw [htt]
        dsimp only
        split <;> simp
    exact ⟨⟨fun hx => absurd hx hnx, fun hx => absurd hm hx⟩,
           fun hx => absurd hm hx⟩
  · -- mismatch: nextBlock fails with InvalidChecksum before delivering bytes
    have hnx : nextBlock d = ({ d with
        NumBlocks := d.NumBlocks - 1,
        SizeRead := u32 (d.SizeRead + headLen d.GameVersion),
        src := d.src.drop (headLen d.GameVersion),
        SizeBlock := (parseHeader d.GameVersion hdr).2.1,
        crcData := (parseHeader d.GameVersion hdr).2.2.2 },
        some DErr.invalidChecksum) := by
      unfold nextBlock
      rw [if_neg hnb, hclose]
      dsimp only
      rw [if_neg hlennot, htake]
      rw [if_pos hm]
    refine ⟨⟨fun _ => hm, fun _ => by rw [hnx]⟩, fun _ => ?_⟩
    unfold Decompressor.Read
    rw [if_neg (by omega)]
    have hne : ¬ (0 : Nat) = min bufLen d.SizeTotal := by
      have : 0 < min bufLen d.SizeTotal := by omega
      omega
    have hstep : readStep d 0 (min bufLen d.SizeTotal) =
        .inl (0, { d with
          NumBlocks := d.NumBlocks - 1,
          SizeRead := u32 (d.SizeRead + headLen d.GameVersion),
          src := d.src.drop (headLen d.GameVersion),
          SizeBlock := (parseHeader d.GameVersion hdr).2.1,
          crcData := (parseHeader d.GameVersion hdr).2.2.2 },
          some DErr.invalidChecksum) := by
      unfold readStep
      rw [if_pos hsb, hnx]
    rw [show d.NumBlocks + 3 = (d.NumBlocks + 2) + 1 by omega]
    rw [readLoop_inl (d.NumBlocks + 2) d 0 _ _ hne hstep]
    exact ⟨rfl, rfl⟩




/-- C2: counterexample.  Fully draining a one-block stream whose declared
compressed length is 5 leaves SizeRead = 17 under the modern 12-byte
header layout and SizeRead = 13 under the legacy 8-byte layout — the
header bytes are counted — whereas the claim's formula (declared
compressed length plus the fixed 2-byte engine framing overhead) gives 7
in both cases. -/
theorem c2_counterexample :
    ((NewDecompressor 0 (encodeStream 0 [wBlk]) 1 3).Read 100).2.2 = none ∧
    ((NewDecompressor 0 (encodeStream 0 [wBlk]) 1 3).Read 100).2.1.SizeRead = 17 ∧
    ((NewDecompressor 1 (encodeStream 1 [wBlk]) 1 3).Read 100).2.2 = none ∧
    ((NewDecompressor 1 (encodeStream 1 [wBlk]) 1 3).Read 100).2.1.SizeRead = 13 ∧
    wBlk.lenDeflate = 5 ∧ zHDR = 2 ∧
    ¬ (17 : Nat) = 5 + 2 ∧ ¬ (13 : Nat) = 5 + 2 := by decide

/-- C7: counterexample.  A session owing 3 bytes over a single block
declaring 10 decompressed bytes, with the input truncated in the middle
of that block (19 of 24 bytes), reads to exhaustion with no
UnexpectedEndOfData and no I/O error: the first read delivers all 3 owed
bytes successfully and every later read reports the clean end of
stream. -/
theorem c7_counterexample :
    ((NewDecompressor 0 ((encodeStream 0 [blk10]).take 19) 1 3).Read 100).1 = 3 ∧
    ((NewDecompressor 0 ((encodeStream 0 [blk10]).take 19) 1 3).Read 100).2.2 = none ∧
    ((NewDecompressor 0 ((encodeStream 0 [blk10]).take 19) 1 3).Read 100).2.1.SizeTotal = 0 ∧
    (((NewDecompressor 0 ((encodeStream 0 [blk10]).take 19) 1 3).Read 100).2.1.Read 100).1 = 0 ∧
    (((NewDecompressor 0 ((encodeStream 0 [blk10]).take 19) 1 3).Read 100).2.1.Read 100).2.2 =
      some DErr.eof ∧
    (encodeBlock 0 blk10).length = 24 ∧
    ((encodeStream 0 [blk10]).take 19).length = 19 := by decide

theorem c2_witness :
    (∀ x ∈ ([] : List Block) ++ [wBlk], wfBlock 0 x) ∧
    ((NewDecompressor 0 (encodeStream 0 ([] ++ [wBlk]))
        ([] ++ [wBlk]).length (totalPayload ([] ++ [wBlk]))).Read 100).1 =
      totalPayload ([] ++ [wBlk]) ∧
    ((NewDecompressor 0 (encodeStream 0 ([] ++ [wBlk]))
        ([] ++ [wBlk]).length (totalPayload ([] ++ [wBlk]))).Read 100).2.2 = none ∧
    ((NewDecompressor 0 (encodeStream 0 ([] ++ [wBlk]))
        ([] ++ [wBlk]).length (totalPayload ([] ++ [wBlk]))).Read 100).2.1.SizeRead =
      totalSizeRead 0 ([] ++ [wBlk]) :=
  ⟨by decide, c2_amended_sizeread 0 [] wBlk 100 (by decide) (by decide) (by decide) (by decide)⟩

theorem c3_witness :
    (totalPayload [blk6] < 10 ∧ 10 < totalPayload [blk6] + blk8.payload.length) ∧
    ((NewDecompressor 0 (encodeStream 0 ([blk6] ++ [blk8]))
        ([blk6] ++ [blk8]).length 10).Read 100).1 = 10 ∧
    ((NewDecompressor 0 (encodeStream 0 ([blk6] ++ [blk8]))
        ([blk6] ++ [blk8]).length 10).Read 100).2.2 = none ∧
    ((NewDecompressor 0 (encodeStream 0 ([blk6] ++ [blk8]))
        ([blk6] ++ [blk8]).length 10).Read 100).2.1.SizeBlock = 0 ∧
    ((NewDecompressor 0 (encodeStream 0 ([blk6] ++ [blk8]))
        ([blk6] ++ [blk8]).length 10).Read 100).2.1.limN = 0 ∧
    ((NewDecompressor 0 (encodeStream 0 ([blk6] ++ [blk8]))
        ([blk6] ++ [blk8]).length 10).Read 100).2.1.src = [] ∧
    closeBlock ((NewDecompressor 0 (encodeStream 0 ([blk6] ++ [blk8]))
        ([blk6] ++ [blk8]).length 10).Read 100).2.1 = none := by
  refine ⟨by decide, ?_⟩
  have h := c3_final_block_drain 0 [blk6] blk8 10 100 (by decide) (by decide) (by decide)
    (by decide) (by decide) (by decide)
  exact ⟨h.1, h.2.1, h.2.2.1, h.2.2.2.1, h.2.2.2.2.1, h.2.2.2.2.2⟩

theorem c7_witness :
    (0 < 19 ∧ 19 < (encodeBlock 0 blk10).length ∧
      0 < blk10.payload.length + totalPayload []) ∧
    ((NewDecompressor 0 (encodeStream 0 [] ++ (encodeBlock 0 blk10).take 19)
        ([] ++ blk10 :: []).length (totalPayload ([] ++ blk10 :: []))).Read
        100).2.2 = some DErr.unexpectedEOF ∧
    ((NewDecompressor 0 (encodeStream 0 [] ++ (encodeBlock 0 blk10).take 19)
        ([] ++ blk10 :: []).length (totalPayload ([] ++ blk10 :: []))).Read
        100).1 < totalPayload ([] ++ blk10 :: []) :=
  ⟨by decide, c7_amended_truncation 0 [] [] blk10 19 100 (by decide) (by decide) (by decide)
    (by decide) (by decide) (by decide) (by decide)⟩

theorem c4_witness :
    ((NewDecompressor 0 badHdr 1 3).src = badHdr ++ [] ∧
      (parseHeader 0 badHdr).2.2.1 ≠
        fold16 (checksumIEEE (badHdr.take (headLen 0 - 4) ++ [0, 0, 0, 0]))) ∧
    (((nextBlock (NewDecompressor 0 badHdr 1 3)).2 = some DErr.invalidChecksum ↔
      (parseHeader 0 badHdr).2.2.1 ≠
        fold16 (checksumIEEE (badHdr.take (headLen 0 - 4) ++ [0, 0, 0, 0]))) ∧
    ((parseHeader 0 badHdr).2.2.1 ≠
        fold16 (checksumIEEE (badHdr.take (headLen 0 - 4) ++ [0, 0, 0, 0])) →
      ((NewDecompressor 0 badHdr 1 3).Read 8).1 = 0 ∧
      ((NewDecompressor 0 badHdr 1 3).Read 8).2.2 = some DErr.invalidChecksum)) :=
  ⟨by decide, c4_header_checksum (NewDecompressor 0 badHdr 1 3) badHdr [] 8 (by decide) (by decide)
    (by decide) (by decide) (by decide) (by decide) (by decide)⟩

theorem c5_witness :
    (headLen 1 = 8 ∧
      parseHeader 1 [1, 0, 2, 0, 3, 0, 4, 0] = (1, 2, 3, 4)) ∧
    (headLen 0 = 12 ∧
      parseHeader 0 [1, 0, 0, 0, 2, 0, 0, 0, 3, 0, 4, 0] = (1, 2, 3, 4)) :=
  ⟨(c5_header_layout 1 1 0 2 0 3 0 4 0 0 0 0 0 (by decide) (by decide) (by decide)
      (by decide) (by decide) (by decide) (by decide) (by decide) (by decide)
      (by decide) (by decide) (by decide)).1 (by decide),
   (c5_header_layout 0 1 0 0 0 2 0 0 0 3 0 4 0 (by decide) (by decide) (by decide)
      (by decide) (by decide) (by decide) (by decide) (by decide) (by decide)
      (by decide) (by decide) (by decide)).2 (by decide)⟩

theorem c8_witness :
    ForEach (fun n : Nat => if n = 2 then some 9 else none)
      ([0, 1].map Except.ok) = ([0, 1], none) ∧
    ForEach (fun n : Nat => if n = 2 then some 9 else none)
      ([0, 2, 3].map Except.ok) = ([0] ++ [2], some 9) :=
  ⟨(c8_forEach_spec (fun n : Nat => if n = 2 then some 9 else none) [0, 1]).1 (by decide),
   (c8_forEach_spec (fun n : Nat => if n = 2 then some 9 else none) [0, 2, 3]).2
      [0] 2 [3] 9 rfl (by decide) (by decide)⟩

theorem c1_witness :
    (0 < (NewDecompressor 0 [] 0 7).SizeTotal ∧
      (NewDecompressor 0 [] 0 7).NumBlocks = 0) ∧
    (NewDecompressor 0 [] 0 7).Read 4 = (0, NewDecompressor 0 [] 0 7, some DErr.eof) :=
  ⟨by decide, c1_amended_eof_on_exhausted_blocks (NewDecompressor 0 [] 0 7) 4 (by decide) (by decide)
    (by decide) (by decide)⟩


end W3g
